import Mathlib

/-!
# Village Square shared utilities (`static/shared.js`)

A shallow embedding of the functions of the `VS` namespace object and the
properties stated about them.

* `VS.timeAgo`        : relative-time formatter (pure arithmetic on whole seconds)
* `VS.escapeHTML`     : text-node serialisation of a string
* `VS.authGuard`      : the promise chain behind the `/api/me` check
* `VS.setupHamburger` : the three click handlers of the menu toggle
* `VS.toast`          : the toast container, its closures and its timers
* `VS.inlineConfirm`  : the confirm/cancel widget, its marker and its timer

The browser is modelled as far as the code touches it: a container is the list
of its child nodes, a timer is an entry in a list of pending timers that may
fire at any later moment, the pointer reaches a toast only while the toast is in
its container, a click event on a button of `inlineConfirm` runs the button's
handler whenever it is dispatched, a click bubbles to the document unless a
handler on its way stops it, and a callback supplied by the caller is an
identifier whose invocations are recorded.
-/

namespace VS

/-! ## timeAgo -/

/-- The value of `Math.floor(a / b)` on integers. -/
def floorDiv (a b : Int) : Int := Int.fdiv a b

/-- The branch of `timeAgo` that produced the result, with the number it prints. -/
inductive Bucket where
  | justNow
  | minutes (n : Int)
  | hours (n : Int)
  | days (n : Int)
  | months (n : Int)
  deriving DecidableEq, Repr

/-- Lines 73-81 of `timeAgo`: the chain of comparisons and nested floor
divisions, from the whole number of elapsed seconds. -/
def timeAgoBucket (secs : Int) : Bucket :=
  if secs < 60 then .justNow else
  let mins := floorDiv secs 60
  if mins < 60 then .minutes mins else
  let hrs := floorDiv mins 60
  if hrs < 24 then .hours hrs else
  let days := floorDiv hrs 24
  if days < 30 then .days days else
  let months := floorDiv days 30
  .months months

/-- The string each `return` of `timeAgo` builds: the number followed by the
singular unit when the number `=== 1`, by the plural unit otherwise. -/
def Bucket.render : Bucket → String
  | .justNow => "just now"
  | .minutes n => toString n ++ (if n = 1 then " minute ago" else " minutes ago")
  | .hours n => toString n ++ (if n = 1 then " hour ago" else " hours ago")
  | .days n => toString n ++ (if n = 1 then " day ago" else " days ago")
  | .months n => toString n ++ (if n = 1 then " month ago" else " months ago")

/-- The body of `timeAgo` after line 72, on the whole number of elapsed seconds. -/
def timeAgoSecs (secs : Int) : String := (timeAgoBucket secs).render

/-- Line 72: `Math.floor((Date.now() - new Date(dateStr).getTime()) / 1000)`,
with both instants given in milliseconds. -/
def elapsedSecs (now ts : Int) : Int := floorDiv (now - ts) 1000

/-- Lines 71-82: `timeAgo` with the clock reading `now` and the parsed timestamp `ts`. -/
def timeAgo (now ts : Int) : String := timeAgoSecs (elapsedSecs now ts)

/-- Rank of a bucket: just-now 0, minutes 1, hours 2, days 3, months 4. -/
def Bucket.rank : Bucket → Nat
  | .justNow => 0
  | .minutes _ => 1
  | .hours _ => 2
  | .days _ => 3
  | .months _ => 4

/-- The number a bucket prints; the just-now bucket prints none. -/
def Bucket.number : Bucket → Option Int
  | .justNow => none
  | .minutes n => some n
  | .hours n => some n
  | .days n => some n
  | .months n => some n

/-- Whether the text `s` ends with the text `t`. -/
def endsWith (s t : String) : Bool := t.data.reverse.isPrefixOf s.data.reverse

/-- The bucket rank read off a returned string by its unit word. -/
def textRank (s : String) : Nat :=
  if endsWith s " minute ago" || endsWith s " minutes ago" then 1
  else if endsWith s " hour ago" || endsWith s " hours ago" then 2
  else if endsWith s " day ago" || endsWith s " days ago" then 3
  else if endsWith s " month ago" || endsWith s " months ago" then 4
  else 0

/-- The unit text after the number: singular exactly for the number 1. -/
def unitText (n : Int) (unit : String) : String :=
  if n = 1 then " " ++ unit ++ " ago" else " " ++ unit ++ "s ago"

/-- The bucket definition by direct thresholds on the elapsed seconds, as the
specification words it: `just now` below 60, minutes below 3600, hours below
86400, days below 30 * 86400, months beyond, each number a single floor
division of the seconds. -/
def timeAgoSpec (s : Int) : String :=
  if s < 60 then "just now"
  else if s < 3600 then toString (s / 60) ++ unitText (s / 60) "minute"
  else if s < 86400 then toString (s / 3600) ++ unitText (s / 3600) "hour"
  else if s < 30 * 86400 then toString (s / 86400) ++ unitText (s / 86400) "day"
  else toString (s / (30 * 86400)) ++ unitText (s / (30 * 86400)) "month"

/-! ## escapeHTML -/

/-- The no-break space U+00A0. -/
def nbsp : Char := Char.ofNat 0xA0

/-- Modelled from the spec: the escaping `innerHTML` applies to one character
of a text node. The serialisation is the browser's and is not part of the
repository; it replaces `&`, `<`, `>` and U+00A0 by their entities and leaves
every other character as it is. -/
def escapeChar (c : Char) : List Char :=
  if c = '&' then ['&', 'a', 'm', 'p', ';']
  else if c = '<' then ['&', 'l', 't', ';']
  else if c = '>' then ['&', 'g', 't', ';']
  else if c = nbsp then ['&', 'n', 'b', 's', 'p', ';']
  else [c]

/-- Modelled from the spec: the `innerHTML` of an element whose only child is
a text node with the given characters. -/
def serializeText : List Char → List Char
  | [] => []
  | c :: cs => escapeChar c ++ serializeText cs

/-- Lines 84-88: a fresh `div`, one text node holding `str`, and the `div`'s
`innerHTML`. -/
def escapeHTML (str : String) : String := String.mk (serializeText str.data)

/-- Decoding of the four entities the serialisation produces. -/
def decodeEntities : List Char → List Char
  | '&' :: 'a' :: 'm' :: 'p' :: ';' :: rest => '&' :: decodeEntities rest
  | '&' :: 'l' :: 't' :: ';' :: rest => '<' :: decodeEntities rest
  | '&' :: 'g' :: 't' :: ';' :: rest => '>' :: decodeEntities rest
  | '&' :: 'n' :: 'b' :: 's' :: 'p' :: ';' :: rest => nbsp :: decodeEntities rest
  | c :: rest => c :: decodeEntities rest
  | [] => []

/-- Decoding on strings. -/
def unescapeHTML (s : String) : String := String.mk (decodeEntities s.data)

/-- Whether the characters start with one of the four entities. -/
def beginsEntity (s : List Char) : Bool :=
  ['&', 'a', 'm', 'p', ';'].isPrefixOf s || ['&', 'l', 't', ';'].isPrefixOf s ||
  ['&', 'g', 't', ';'].isPrefixOf s || ['&', 'n', 'b', 's', 'p', ';'].isPrefixOf s

/-- Every `&` of the text, at whatever position, starts one of the four entities. -/
def ampsBeginEntities : List Char → Bool
  | [] => true
  | c :: cs => (c != '&' || beginsEntity (c :: cs)) && ampsBeginEntities cs

/-! ## authGuard -/

/-- A value `r.json()` can produce. -/
inductive JsValue where
  | null
  | bool (b : Bool)
  | number (n : Int)
  | string (s : String)
  | array (items : List JsValue)
  | object (fields : List (String × JsValue))

/-- Truthiness as `if (user)` tests it: `null`, `false`, `0` and the empty
string are falsy, every array and object is truthy. -/
def JsValue.truthy : JsValue → Bool
  | .null => false
  | .bool b => b
  | .number n => n != 0
  | .string s => s != ""
  | .array _ => true
  | .object _ => true

/-- How `fetch('/api/me')` ends: the request fails (the promise rejects), or a
response arrives with a status and a body; `body = none` is a body `r.json()`
cannot parse (its promise rejects). -/
inductive FetchOutcome where
  | networkError
  | response (status : Nat) (body : Option JsValue)

/-- The `ok` flag of a response: status in 200..299. -/
def responseOk (status : Nat) : Bool := decide (200 ≤ status) && decide (status ≤ 299)

/-- How a call of the caller's callback ends. -/
inductive Completion where
  | returns
  | throws
  deriving DecidableEq

/-- A settled promise. -/
inductive Settled (α : Type) where
  | fulfilled (value : α)
  | rejected

/-- What `authGuard` did to the page: the locations assigned to
`window.location.href` and the arguments `onSuccess` was called with, both in
order. -/
structure Effects where
  redirects : List String := []
  calls : List JsValue := []

/-- Lines 47-50: the first `then`. A rejected fetch skips the handler. -/
def authGuardThen1 (fx : Effects) : Settled (Nat × Option JsValue) → Effects × Settled JsValue
  | .rejected => (fx, .rejected)
  | .fulfilled (status, body) =>
    if !responseOk status then
      ({ fx with redirects := fx.redirects ++ ["/index.html"] }, .fulfilled .null)
    else
      match body with
      | some user => (fx, .fulfilled user)
      | none => (fx, .rejected)

/-- Line 51: the second `then`. A callback that throws rejects the promise. -/
def authGuardThen2 (onSuccess : JsValue → Completion) (fx : Effects) :
    Settled JsValue → Effects × Settled Unit
  | .rejected => (fx, .rejected)
  | .fulfilled user =>
    if user.truthy then
      let fx1 := { fx with calls := fx.calls ++ [user] }
      match onSuccess user with
      | .returns => (fx1, .fulfilled ())
      | .throws => (fx1, .rejected)
    else (fx, .fulfilled ())

/-- Line 52: the `catch`. -/
def authGuardCatch (fx : Effects) : Settled Unit → Effects
  | .rejected => { fx with redirects := fx.redirects ++ ["/index.html"] }
  | .fulfilled _ => fx

/-- Lines 45-53: `authGuard(onSuccess)` run to the end of its promise chain. -/
def authGuard (outcome : FetchOutcome) (onSuccess : JsValue → Completion) : Effects :=
  let p0 : Settled (Nat × Option JsValue) :=
    match outcome with
    | .networkError => .rejected
    | .response status body => .fulfilled (status, body)
  let (fx1, p1) := authGuardThen1 {} p0
  let (fx2, p2) := authGuardThen2 onSuccess fx1 p1
  authGuardCatch fx2 p2

/-- The body of the spec example, `{"id":1,"name":"x"}`. -/
def exampleUser : JsValue :=
  .object [("id", .number 1), ("name", .string "x")]

/-! ## setupHamburger -/

/-- What the handlers read and write: the `open` class of the panel, the `open`
class of the toggle, and the toggle's `aria-expanded` attribute. -/
structure MenuState where
  menuOpen : Bool
  btnOpen : Bool
  ariaExpanded : Option String
  deriving DecidableEq, Repr

/-- Where a click lands: on the toggle; on a navigation link of the panel;
elsewhere inside the panel; outside panel and toggle on an element that lets the
event bubble to the document; or outside panel and toggle on an element whose
own click handler calls `e.stopPropagation()`, as the Cancel and Confirm buttons
inserted by `inlineConfirm` do (lines 126-128). -/
inductive ClickTarget where
  | toggle
  | navLink
  | insidePanel
  | outside
  | outsideStopped
  deriving DecidableEq, Repr

/-- Lines 161-166: the handler on the toggle. `classList.toggle('open')` flips
the panel's class and returns the new state; `toggle('open', isOpen)` forces the
toggle's class. -/
def toggleHandler (s : MenuState) : MenuState :=
  let isOpen := !s.menuOpen
  { menuOpen := isOpen, btnOpen := isOpen,
    ariaExpanded := some (if isOpen then "true" else "false") }

/-- Lines 169-176: the handler on the document, for a target that is or is not
inside the panel and is or is not the toggle. -/
def documentHandler (inMenu isBtn : Bool) (s : MenuState) : MenuState :=
  if !s.menuOpen then s
  else if !inMenu && !isBtn then
    { menuOpen := false, btnOpen := false, ariaExpanded := some "false" }
  else s

/-- Lines 181-185: the handler on each navigation link. -/
def navLinkHandler (_s : MenuState) : MenuState :=
  { menuOpen := false, btnOpen := false, ariaExpanded := some "false" }

/-- A click, dispatched along its path. `bound` says whether `setupHamburger`
found both elements and attached the handlers (line 159 returns otherwise). The
toggle's handler stops propagation, so the document handler does not see a
toggle click; a link click bubbles from the link to the document; a click on an
element whose handler stops propagation never reaches the document, so none of
the three handlers runs. -/
def click (bound : Bool) (s : MenuState) : ClickTarget → MenuState
  | .toggle => if bound then toggleHandler s else s
  | .navLink => if bound then documentHandler true false (navLinkHandler s) else s
  | .insidePanel => if bound then documentHandler true false s else s
  | .outside => if bound then documentHandler false false s else s
  | .outsideStopped => s

/-- Line 159: the handlers are attached when both elements exist. -/
def setupHamburger (hasBtn hasMenu : Bool) : Bool := hasBtn && hasMenu

/-- A sequence of clicks. -/
def clicks (bound : Bool) (s : MenuState) (ts : List ClickTarget) : MenuState :=
  ts.foldl (click bound) s

/-- The toggle's class and `aria-expanded` agree with the panel's class. -/
def MenuState.agrees (s : MenuState) : Prop :=
  s.btnOpen = s.menuOpen ∧ s.ariaExpanded = some (if s.menuOpen then "true" else "false")

/-! ## toast -/

/-- Line 3. -/
def MAX_TOASTS : Nat := 3

/-- A child node of the toast container: a `div` made by `toast`, named by its
creation number; an element of another origin; or a node that is not an
element (text, comment), which `children` does not count and `lastChild` does. -/
inductive Node where
  | toast (el : Nat)
  | element
  | text
  deriving DecidableEq, Repr

/-- Whether `container.children` lists the node. -/
def Node.isElement : Node → Bool
  | .toast _ => true
  | .element => true
  | .text => false

/-- The value of `container.children.length`. -/
def childrenLength (nodes : List Node) : Nat := (nodes.filter Node.isElement).length

/-- The statement `container.removeChild(container.lastChild)`. -/
def removeLastChild (nodes : List Node) : List Node := nodes.dropLast

/-- Lines 13-15: the `while` loop, run for at most `fuel` iterations. -/
def evictLoop : Nat → List Node → List Node
  | 0, nodes => nodes
  | fuel + 1, nodes =>
    if MAX_TOASTS ≤ childrenLength nodes then evictLoop fuel (removeLastChild nodes)
    else nodes

/-- What a pending timer runs: `dismiss` of a toast (lines 26-30) or the
removal scheduled by `dismiss` (line 29). -/
inductive TimerAction where
  | dismiss (el : Nat)
  | remove (el : Nat)
  deriving DecidableEq, Repr

/-- What `toast` wrote on the element it created, and the closure variable
`timer` of that call. -/
structure ToastElement where
  className : String
  innerHTML : String
  animation : String
  timer : Nat
  deriving DecidableEq, Repr

/-- The page as `toast` sees it: the child nodes of `#toastContainer` (`none`
when the page has no such element), the elements created so far in creation
order, the pending timers with their identifiers, and the next timer
identifier. -/
structure ToastState where
  container : Option (List Node)
  toasts : List ToastElement
  pending : List (Nat × TimerAction)
  nextTimer : Nat
  deriving DecidableEq, Repr

/-- The double quote character. -/
def dq : String := String.singleton (Char.ofNat 34)

/-- Lines 19-22: the markup assigned to `el.innerHTML`. -/
def toastMarkup (message : String) : String :=
  "<span>" ++ escapeHTML message ++ "</span>" ++
  "<button class=" ++ dq ++ "toast-close" ++ dq ++ " aria-label=" ++ dq ++ "Close" ++ dq ++
    ">&times;</button>" ++
  "<div class=" ++ dq ++ "toast-progress" ++ dq ++ "></div>"

/-- Line 8: `type || 'info'`; an absent or empty type is falsy. -/
def typeOrInfo : Option String → String
  | none => "info"
  | some t => if t = "" then "info" else t

/-- Lines 7-37: `toast(message, type)`. The new element takes the next creation
number, is inserted before the first child, and its dismissal timer is started. -/
def toast (st : ToastState) (message : String) (type : Option String) : ToastState :=
  let type := typeOrInfo type
  match st.container with
  | none => st
  | some nodes =>
    let nodes := evictLoop nodes.length nodes
    let el := st.toasts.length
    let info : ToastElement :=
      { className := "toast " ++ type, innerHTML := toastMarkup message,
        animation := "", timer := st.nextTimer }
    { container := some (Node.toast el :: nodes)
      toasts := st.toasts ++ [info]
      pending := st.pending ++ [(st.nextTimer, .dismiss el)]
      nextTimer := st.nextTimer + 1 }

/-- The value of `el.parentNode` as a condition: the element is a child of the container. -/
def attached (st : ToastState) (el : Nat) : Bool :=
  match st.container with
  | none => false
  | some nodes => nodes.contains (Node.toast el)

/-- Lines 26-30: `dismiss`. -/
def dismiss (st : ToastState) (el : Nat) : ToastState :=
  if !attached st el then st
  else
    { st with
      toasts := st.toasts.modify
        (fun e => { e with animation := "toastFadeOut 0.3s ease forwards" }) el
      pending := st.pending ++ [(st.nextTimer, .remove el)]
      nextTimer := st.nextTimer + 1 }

/-- Line 29: the function the fade-out timer runs. -/
def removeToast (st : ToastState) (el : Nat) : ToastState :=
  if attached st el then
    { st with container := st.container.map (fun nodes => nodes.erase (Node.toast el)) }
  else st

/-- Lines 34-36: `clearTimeout(timer)` on entering. -/
def mouseEnter (st : ToastState) (el : Nat) : ToastState :=
  match st.toasts.get? el with
  | none => st
  | some e => { st with pending := st.pending.filter (fun p => p.1 != e.timer) }

/-- Line 36: `timer = setTimeout(dismiss, 2000)` on leaving. -/
def mouseLeave (st : ToastState) (el : Nat) : ToastState :=
  { st with
    toasts := st.toasts.modify (fun e => { e with timer := st.nextTimer }) el
    pending := st.pending ++ [(st.nextTimer, .dismiss el)]
    nextTimer := st.nextTimer + 1 }

/-- What can happen to the toasts: a call of `toast`, a click on a toast's close
button, the pointer entering or leaving a toast, a pending timer firing. -/
inductive ToastEvent where
  | toast (message : String) (type : Option String)
  | closeClick (el : Nat)
  | mouseEnter (el : Nat)
  | mouseLeave (el : Nat)
  | timerFires (t : Nat)
  deriving DecidableEq, Repr

/-- One event. Pointer events reach a toast only while it is in the container; a
timer fires only while pending, and is no longer pending afterwards. -/
def toastStep (st : ToastState) : ToastEvent → ToastState
  | .toast message type => toast st message type
  | .closeClick el => if attached st el then dismiss st el else st
  | .mouseEnter el => if attached st el then mouseEnter st el else st
  | .mouseLeave el => if attached st el then mouseLeave st el else st
  | .timerFires t =>
    match st.pending.find? (fun p => p.1 == t) with
    | none => st
    | some (_, action) =>
      let st1 := { st with pending := st.pending.filter (fun p => p.1 != t) }
      match action with
      | .dismiss el => dismiss st1 el
      | .remove el => removeToast st1 el

/-- A sequence of events. -/
def toastRun (st : ToastState) (es : List ToastEvent) : ToastState :=
  es.foldl toastStep st

/-- The number of element children of the container; zero without a container. -/
def childCount (st : ToastState) : Nat :=
  match st.container with
  | none => 0
  | some nodes => childrenLength nodes

/-- A page with an empty toast container and nothing created yet. -/
def emptyContainer : ToastState :=
  { container := some [], toasts := [], pending := [], nextTimer := 0 }

/-- A sequence of `toast` calls with the given messages and types. -/
def toastCalls (st : ToastState) (calls : List (String × Option String)) : ToastState :=
  calls.foldl (fun s c => toast s c.1 c.2) st


/-- The container holds only toasts, newest first: the creation numbers decrease
strictly along the child list and every one names a created element. -/
def NewestFirst (st : ToastState) : Prop :=
  ∃ ids : List Nat, st.container = some (ids.map Node.toast) ∧
    ids.Pairwise (fun a b => b < a) ∧ ∀ i ∈ ids, i < st.toasts.length

/-! ## inlineConfirm -/

/-- A child node of the control's parent other than the control: the `span`
made by the session with the given number, or some other node. -/
inductive Sibling where
  | group (k : Nat)
  | other (id : Nat)
  deriving DecidableEq, Repr

/-- The closure of one call of `inlineConfirm` that passed the guard: the
callback it was given and the identifier of its auto-revert timer. -/
structure Session where
  onConfirm : Nat
  timeout : Nat
  deriving DecidableEq, Repr

/-- The control `btn` and what surrounds it: its inline `display` style, its
class, its content, the value of `dataset.confirming` (`none` when absent), the
child nodes of its parent before it and after it (`none` when the control has no
parent), the sessions started so far in order, the pending timers (identifier
and the session whose `revert` they run), the next timer identifier, and the
callbacks invoked so far in order. -/
structure ConfirmState where
  display : String
  className : String
  innerHTML : String
  confirming : Option String
  parent : Option (List Sibling × List Sibling)
  sessions : List Session
  pending : List (Nat × Nat)
  nextTimer : Nat
  invoked : List Nat
  deriving DecidableEq, Repr

/-- Line 92: `btn.dataset.confirming` as a condition; an absent attribute and an
empty value are falsy. -/
def markerSet (st : ConfirmState) : Bool :=
  match st.confirming with
  | none => false
  | some v => v != ""

/-- Whether the `span` of session `k` has a parent (`group.parentNode`). -/
def groupAttached (st : ConfirmState) (k : Nat) : Bool :=
  match st.parent with
  | none => false
  | some (before, after) => before.contains (.group k) || after.contains (.group k)

/-- Lines 91-132: `inlineConfirm(btn, onConfirm)`. With the marker set the call
returns at once. Otherwise it sets the marker and hides the control; line 115
then needs the control's parent, and on a control without one the call ends
there with a `TypeError`, the two assignments made. With a parent the new `span`
becomes the control's next sibling, the auto-revert timer is started and the two
click handlers are attached. -/
def inlineConfirm (st : ConfirmState) (onConfirm : Nat) : ConfirmState :=
  if markerSet st then st
  else
    let st1 := { st with confirming := some "1", display := "none" }
    match st1.parent with
    | none => st1
    | some (before, after) =>
      let k := st1.sessions.length
      let t := st1.nextTimer
      { st1 with
        parent := some (before, .group k :: after)
        sessions := st1.sessions ++ [{ onConfirm := onConfirm, timeout := t }]
        pending := st1.pending ++ [(t, k)]
        nextTimer := t + 1 }

/-- Lines 117-122: `revert` of session `k`: the session's timer is cleared, its
`span` is removed when it has a parent, the control's inline `display` is set to
the empty string and the marker is deleted. -/
def revert (st : ConfirmState) (k : Nat) : ConfirmState :=
  match st.sessions.get? k with
  | none => st
  | some s =>
    { st with
      pending := st.pending.filter (fun p => p.1 != s.timeout)
      parent :=
        if groupAttached st k then
          st.parent.map (fun p => (p.1.erase (.group k), p.2.erase (.group k)))
        else st.parent
      display := ""
      confirming := none }

/-- What can happen to the control: a call `inlineConfirm(btn, f)`, a click
event on the cancel or on the confirm button of session `k`, a pending timer
firing. -/
inductive ConfirmEvent where
  | call (onConfirm : Nat)
  | clickCancel (k : Nat)
  | clickConfirm (k : Nat)
  | timerFires (t : Nat)
  deriving DecidableEq, Repr

/-- One event. A click event on a button of session `k` runs the button's
handler whenever session `k` was started, whether or not the button is still in
the document: line 126 is the cancel handler (`revert`), lines 127-131 the
confirm handler (`revert`, then the callback), and neither tests anything. A
timer (line 124) fires only while pending and is no longer pending afterwards. -/
def confirmStep (st : ConfirmState) : ConfirmEvent → ConfirmState
  | .call f => inlineConfirm st f
  | .clickCancel k => revert st k
  | .clickConfirm k =>
    match st.sessions.get? k with
    | none => st
    | some s =>
      let st1 := revert st k
      { st1 with invoked := st1.invoked ++ [s.onConfirm] }
  | .timerFires t =>
    match st.pending.find? (fun p => p.1 == t) with
    | none => st
    | some (_, k) => revert { st with pending := st.pending.filter (fun p => p.1 != t) } k

/-- A sequence of events. -/
def confirmRun (st : ConfirmState) (es : List ConfirmEvent) : ConfirmState :=
  es.foldl confirmStep st

/-- The number of confirm/cancel pairs among the siblings of the control. -/
def pairCount (st : ConfirmState) : Nat :=
  match st.parent with
  | none => 0
  | some (before, after) =>
    (before.filter (fun n => n matches .group _)).length +
      (after.filter (fun n => n matches .group _)).length

/-- The control's next sibling. -/
def nextSibling (st : ConfirmState) : Option Sibling :=
  match st.parent with
  | none => none
  | some (_, after) => after.head?

/-- A control before any call: the given inline display, class, content and
marker value, the given plain siblings before and after it (`none` for a control
without a parent), nothing started. -/
def freshControl (display className innerHTML : String) (confirming : Option String)
    (siblings : Option (List Nat × List Nat)) : ConfirmState :=
  { display := display, className := className, innerHTML := innerHTML,
    confirming := confirming,
    parent := siblings.map (fun p => (p.1.map Sibling.other, p.2.map Sibling.other)),
    sessions := [], pending := [], nextTimer := 0, invoked := [] }

/-- A state some control reaches from before any call by some sequence of events. -/
def Reachable (st : ConfirmState) : Prop :=
  ∃ display className innerHTML confirming siblings es,
    st = confirmRun (freshControl display className innerHTML confirming siblings) es

/-- Every `span` among the siblings belongs to a session already started and
every pending timer carries an identifier already handed out. -/
def WellFormed (st : ConfirmState) : Prop :=
  (∀ k, groupAttached st k = true → k < st.sessions.length) ∧
    ∀ p ∈ st.pending, p.1 < st.nextTimer

/-- The timer `t` was handed out and is not pending. -/
def TimerOver (st : ConfirmState) (t : Nat) : Prop :=
  t < st.nextTimer ∧ ∀ p ∈ st.pending, p.1 ≠ t

/-! ## Theorems -/

theorem floorDiv_eq_ediv (a b : Int) (hb : 0 ≤ b) : floorDiv a b = a / b := by
  unfold floorDiv; exact Int.fdiv_eq_ediv a hb

theorem unitText_minute (n : Int) :
    unitText n "minute" = if n = 1 then " minute ago" else " minutes ago" := by
  unfold unitText; split <;> decide

theorem unitText_hour (n : Int) :
    unitText n "hour" = if n = 1 then " hour ago" else " hours ago" := by
  unfold unitText; split <;> decide

theorem unitText_day (n : Int) :
    unitText n "day" = if n = 1 then " day ago" else " days ago" := by
  unfold unitText; split <;> decide

theorem unitText_month (n : Int) :
    unitText n "month" = if n = 1 then " month ago" else " months ago" := by
  unfold unitText; split <;> decide

/-- The nested floor divisions of the code against single divisions of the seconds. -/
theorem timeAgoBucket_eq (s : Int) :
    timeAgoBucket s =
      if s < 60 then .justNow
      else if s < 3600 then .minutes (s / 60)
      else if s < 86400 then .hours (s / 3600)
      else if s < 30 * 86400 then .days (s / 86400)
      else .months (s / (30 * 86400)) := by
  unfold timeAgoBucket
  simp only [floorDiv_eq_ediv _ _ (by norm_num : (0:Int) ≤ 60),
    floorDiv_eq_ediv _ _ (by norm_num : (0:Int) ≤ 24),
    floorDiv_eq_ediv _ _ (by norm_num : (0:Int) ≤ 30)]
  by_cases h1 : s < 60
  · simp [h1]
  · have e1 : (s / 60 < 60) ↔ s < 3600 := by omega
    have e2 : (s / 60 / 60 < 24) ↔ s < 86400 := by omega
    have e3 : (s / 60 / 60 / 24 < 30) ↔ s < 30 * 86400 := by omega
    have d2 : s / 60 / 60 = s / 3600 := by omega
    have d3 : s / 60 / 60 / 24 = s / 86400 := by omega
    have d4 : s / 60 / 60 / 24 / 30 = s / (30 * 86400) := by omega
    rw [if_neg h1, if_neg h1]
    by_cases h2 : s < 3600
    · rw [if_pos (e1.2 h2), if_pos h2]
    · rw [if_neg (fun h => h2 (e1.1 h)), if_neg h2]
      by_cases h3 : s < 86400
      · rw [if_pos (e2.2 h3), if_pos h3, d2]
      · rw [if_neg (fun h => h3 (e2.1 h)), if_neg h3]
        by_cases h4 : s < 30 * 86400
        · rw [if_pos (e3.2 h4), if_pos h4, d3]
        · rw [if_neg (fun h => h4 (e3.1 h)), if_neg h4, d4]

theorem textRank_render (b : Bucket) : textRank b.render = b.rank := by
  cases b with
  | justNow => decide
  | minutes n =>
    by_cases h : n = 1 <;>
      simp [Bucket.render, Bucket.rank, textRank, endsWith, String.data_append, List.isPrefixOf, h]
  | hours n =>
    by_cases h : n = 1 <;>
      simp [Bucket.render, Bucket.rank, textRank, endsWith, String.data_append, List.isPrefixOf, h]
  | days n =>
    by_cases h : n = 1 <;>
      simp [Bucket.render, Bucket.rank, textRank, endsWith, String.data_append, List.isPrefixOf, h]
  | months n =>
    by_cases h : n = 1 <;>
      simp [Bucket.render, Bucket.rank, textRank, endsWith, String.data_append, List.isPrefixOf, h]

/-- C3: for every whole number `s` of elapsed seconds the string `timeAgo`
builds by nested floor divisions is the one given by the direct thresholds on
`s` (just now below 60, minutes below 3600, hours below 86400, days below
30 * 86400, months beyond, each number one floor division of `s`), and in each
bucket the unit is singular exactly when the printed number is 1: that is for
`s` in 60..119, 3600..7199, 86400..172799 and 2592000..5183999. -/
theorem timeAgo_buckets (s : Int) :
    timeAgoSecs s = timeAgoSpec s ∧
    (endsWith (timeAgoSecs s) " minute ago" = true ↔ 60 ≤ s ∧ s < 120) ∧
    (endsWith (timeAgoSecs s) " hour ago" = true ↔ 3600 ≤ s ∧ s < 7200) ∧
    (endsWith (timeAgoSecs s) " day ago" = true ↔ 86400 ≤ s ∧ s < 172800) ∧
    (endsWith (timeAgoSecs s) " month ago" = true ↔ 2592000 ≤ s ∧ s < 5184000) := by
  have hb := timeAgoBucket_eq s
  refine ⟨?_, ?_, ?_, ?_, ?_⟩
  · unfold timeAgoSecs timeAgoSpec
    rw [hb, unitText_minute, unitText_hour, unitText_day, unitText_month]
    split_ifs <;> simp_all [Bucket.render]
  all_goals
    unfold timeAgoSecs
    rw [hb]
    split_ifs with h1 h2 h3 h4
    · simp [Bucket.render, endsWith]; omega
    all_goals
      simp only [Bucket.render]
      split_ifs with h5 <;>
        simp [endsWith, String.data_append, List.isPrefixOf] <;> omega

theorem elapsedSecs_antitone (now t1 t2 : Int) (h : t1 ≤ t2) :
    elapsedSecs now t2 ≤ elapsedSecs now t1 := by
  unfold elapsedSecs
  rw [floorDiv_eq_ediv _ _ (by norm_num), floorDiv_eq_ediv _ _ (by norm_num)]
  omega

theorem timeAgoBucket_mono (s1 s2 : Int) (h : s2 ≤ s1) :
    (timeAgoBucket s2).rank ≤ (timeAgoBucket s1).rank ∧
    ((timeAgoBucket s1).rank = (timeAgoBucket s2).rank →
      ∀ n1 n2, (timeAgoBucket s1).number = some n1 → (timeAgoBucket s2).number = some n2 →
        n2 ≤ n1) := by
  rw [timeAgoBucket_eq s1, timeAgoBucket_eq s2]
  constructor
  · split_ifs <;> simp [Bucket.rank] <;> omega
  · split_ifs <;> simp [Bucket.rank, Bucket.number] <;> omega

/-- C4: for a fixed clock reading and two timestamps `t1 ≤ t2` (in the past or
in the future of the clock), the rank of the bucket of `timeAgo` for `t1` is at
least the rank for `t2`, both as read off the returned strings and as taken by
the code, and when the two ranks are equal the number printed for `t1` is at
least the number printed for `t2`. -/
theorem timeAgo_monotone (now t1 t2 : Int) (h : t1 ≤ t2) :
    textRank (timeAgo now t2) ≤ textRank (timeAgo now t1) ∧
    (textRank (timeAgo now t1) = textRank (timeAgo now t2) →
      ∀ n1 n2, (timeAgoBucket (elapsedSecs now t1)).number = some n1 →
        (timeAgoBucket (elapsedSecs now t2)).number = some n2 → n2 ≤ n1) := by
  have hs := elapsedSecs_antitone now t1 t2 h
  have hm := timeAgoBucket_mono _ _ hs
  unfold timeAgo timeAgoSecs
  rw [textRank_render, textRank_render]
  exact hm

theorem timeAgo_monotone_witness :
    textRank (timeAgo 10000000 4000000) ≤ textRank (timeAgo 10000000 0) ∧
    (textRank (timeAgo 10000000 0) = textRank (timeAgo 10000000 4000000) →
      ∀ n1 n2, (timeAgoBucket (elapsedSecs 10000000 0)).number = some n1 →
        (timeAgoBucket (elapsedSecs 10000000 4000000)).number = some n2 → n2 ≤ n1) :=
  timeAgo_monotone 10000000 0 4000000 (by decide)

/-! ### escapeHTML -/

theorem decodeEntities_other (c : Char) (h : c ≠ '&') (rest : List Char) :
    decodeEntities (c :: rest) = c :: decodeEntities rest := by
  rw [decodeEntities]
  all_goals (intros; simp_all)

theorem decodeEntities_serializeText (s : List Char) :
    decodeEntities (serializeText s) = s := by
  induction s with
  | nil => rfl
  | cons c cs ih =>
    unfold serializeText escapeChar
    split_ifs with h1 h2 h3 h4
    · subst h1; simp [decodeEntities, ih]
    · subst h2; simp [decodeEntities, ih]
    · subst h3; simp [decodeEntities, ih]
    · subst h4; simp [decodeEntities, ih]
    · simp [decodeEntities_other c h1, ih]

theorem serializeText_no_angle (s : List Char) :
    '<' ∉ serializeText s ∧ '>' ∉ serializeText s := by
  induction s with
  | nil => simp [serializeText]
  | cons c cs ih =>
    obtain ⟨ih1, ih2⟩ := ih
    unfold serializeText escapeChar
    split_ifs with h1 h2 h3 h4
    · simp [ih1, ih2]
    · simp [ih1, ih2]
    · simp [ih1, ih2]
    · simp [ih1, ih2]
    · refine ⟨?_, ?_⟩
      · simp only [List.singleton_append, List.mem_cons, not_or]
        exact ⟨fun e => h2 e.symm, ih1⟩
      · simp only [List.singleton_append, List.mem_cons, not_or]
        exact ⟨fun e => h3 e.symm, ih2⟩

theorem ampsBeginEntities_serializeText (s : List Char) :
    ampsBeginEntities (serializeText s) = true := by
  induction s with
  | nil => rfl
  | cons c cs ih =>
    unfold serializeText escapeChar
    split_ifs with h1 h2 h3 h4
    · simp [ampsBeginEntities, beginsEntity, List.isPrefixOf, ih]
    · simp [ampsBeginEntities, beginsEntity, List.isPrefixOf, ih]
    · simp [ampsBeginEntities, beginsEntity, List.isPrefixOf, ih]
    · simp [ampsBeginEntities, beginsEntity, List.isPrefixOf, ih]
    · simp [ampsBeginEntities, ih, h1]

/-- C8: with the text-node serialisation replacing `&`, `<`, `>` and U+00A0 by
`&amp;`, `&lt;`, `&gt;` and `&nbsp;`, for every string `s` the result of
`escapeHTML(s)` holds no `<` and no `>`, every `&` in it starts one of the four
entities, decoding the entities gives `s` back, and `escapeHTML("<b>&")` is
`&lt;b&gt;&amp;`. -/
theorem escapeHTML_roundtrip (s : String) :
    '<' ∉ (escapeHTML s).data ∧ '>' ∉ (escapeHTML s).data ∧
    ampsBeginEntities (escapeHTML s).data = true ∧
    unescapeHTML (escapeHTML s) = s ∧
    escapeHTML "<b>&" = "&lt;b&gt;&amp;" := by
  refine ⟨(serializeText_no_angle s.data).1, (serializeText_no_angle s.data).2,
    ampsBeginEntities_serializeText s.data, ?_, by decide⟩
  unfold unescapeHTML escapeHTML
  simp [decodeEntities_serializeText]

/-! ### authGuard -/

/-- C9 as stated fails on a success whose body is falsy and on a callback that
throws: a 200 response with body `null` invokes `onSuccess` not at all (and does
not redirect), and a 200 response with the example body and a throwing callback
invokes it once and then redirects to `/index.html`. -/
theorem authGuard_success_not_always_called :
    (authGuard (.response 200 (some .null)) (fun _ => .returns)).calls = [] ∧
    (authGuard (.response 200 (some .null)) (fun _ => .returns)).redirects = [] ∧
    (authGuard (.response 200 (some exampleUser)) (fun _ => .throws)).calls = [exampleUser] ∧
    (authGuard (.response 200 (some exampleUser)) (fun _ => .throws)).redirects
      = ["/index.html"] := by
  refine ⟨rfl, rfl, rfl, rfl⟩

/-- C9 (amended): for every callback, a failed request and a response that is
not `ok` (401 and 403 among them) redirect to `/index.html` once and never
invoke `onSuccess`; a response that is `ok` and whose body parses to a truthy
value `u`, with a callback that returns normally on `u`, invokes `onSuccess`
exactly once with exactly `u` and does not redirect. -/
theorem authGuard_outcome (status : Nat) (body : Option JsValue) (u : JsValue)
    (onSuccess : JsValue → Completion) :
    authGuard .networkError onSuccess = { redirects := ["/index.html"], calls := [] } ∧
    (responseOk status = false →
      authGuard (.response status body) onSuccess
        = { redirects := ["/index.html"], calls := [] }) ∧
    authGuard (.response 401 body) onSuccess = { redirects := ["/index.html"], calls := [] } ∧
    authGuard (.response 403 body) onSuccess = { redirects := ["/index.html"], calls := [] } ∧
    (responseOk status = true → u.truthy = true → onSuccess u = .returns →
      authGuard (.response status (some u)) onSuccess = { redirects := [], calls := [u] }) := by
  refine ⟨rfl, ?_, ?_, ?_, ?_⟩
  · intro h
    simp [authGuard, authGuardThen1, authGuardThen2, authGuardCatch, h, JsValue.truthy]
  · simp [authGuard, authGuardThen1, authGuardThen2, authGuardCatch, responseOk, JsValue.truthy]
  · simp [authGuard, authGuardThen1, authGuardThen2, authGuardCatch, responseOk, JsValue.truthy]
  · intro h ht hr
    simp [authGuard, authGuardThen1, authGuardThen2, authGuardCatch, h, ht, hr]

theorem authGuard_outcome_witness :
    authGuard (.response 200 (some exampleUser)) (fun _ => .returns)
      = { redirects := [], calls := [exampleUser] } ∧
    authGuard (.response 500 none) (fun _ => .returns)
      = { redirects := ["/index.html"], calls := [] } :=
  ⟨(authGuard_outcome 200 none exampleUser (fun _ => .returns)).2.2.2.2 rfl rfl rfl,
   (authGuard_outcome 500 none exampleUser (fun _ => .returns)).2.1 rfl⟩

/-! ### setupHamburger -/

theorem clicks_snoc (bound : Bool) (s : MenuState) (ts : List ClickTarget) (t : ClickTarget) :
    clicks bound s (ts ++ [t]) = click bound (clicks bound s ts) t := by
  simp [clicks, List.foldl_append]

theorem click_keeps_classes_equal (bound : Bool) (s : MenuState) (t : ClickTarget)
    (h : s.btnOpen = s.menuOpen) : (click bound s t).btnOpen = (click bound s t).menuOpen := by
  cases t <;> cases bound <;>
    simp [click, toggleHandler, documentHandler, navLinkHandler, h]
  all_goals (split_ifs <;> simp [h])

theorem clicks_keep_classes_equal (bound : Bool) (ts : List ClickTarget) (s : MenuState)
    (h : s.btnOpen = s.menuOpen) :
    (clicks bound s ts).btnOpen = (clicks bound s ts).menuOpen := by
  induction ts generalizing s with
  | nil => simpa [clicks] using h
  | cons t ts ih =>
    have := ih (click bound s t) (click_keeps_classes_equal bound s t h)
    simpa [clicks] using this

/-- The handlers on the clicks that reach them. With both elements found by
`setupHamburger`, from a state where the panel and the toggle both lack the
`open` class and after any finite sequence of clicks: the toggle's class equals
the panel's; a toggle click flips the panel's state; a navigation-link click and
an outside click that bubbles to the document leave the panel closed; a click
inside the panel that is not on a link, and an outside click whose propagation
is stopped, change nothing; and after every click that changes or sets the
state the toggle's class and `aria-expanded` agree with the panel's class. -/
theorem menu_click_effects (s0 : MenuState) (ts : List ClickTarget)
    (hm : s0.menuOpen = false) (hb : s0.btnOpen = false) :
    let bound := setupHamburger true true
    let s := clicks bound s0 ts
    s.btnOpen = s.menuOpen ∧
    (click bound s .toggle).menuOpen = !s.menuOpen ∧
    (click bound s .navLink).menuOpen = false ∧
    (click bound s .outside).menuOpen = false ∧
    click bound s .insidePanel = s ∧
    click bound s .outsideStopped = s ∧
    (click bound s .toggle).agrees ∧
    (click bound s .navLink).agrees ∧
    (s.menuOpen = true → (click bound s .outside).agrees) ∧
    (∀ t, click bound s t ≠ s → (click bound s t).agrees) := by
  intro bound s
  have hinv : s.btnOpen = s.menuOpen :=
    clicks_keep_classes_equal bound ts s0 (by rw [hm, hb])
  have hbound : bound = true := rfl
  refine ⟨hinv, ?_, ?_, ?_, ?_, rfl, ?_, ?_, ?_, ?_⟩
  · simp [click, hbound, toggleHandler]
  · simp [click, hbound, navLinkHandler, documentHandler]
  · simp only [click, hbound, documentHandler]
    cases h : s.menuOpen <;> simp [h]
  · simp only [click, hbound, documentHandler]
    cases h : s.menuOpen <;> simp [h]
  · simp only [click, hbound, toggleHandler, MenuState.agrees]
    cases h : s.menuOpen <;> simp
  · simp [click, hbound, navLinkHandler, documentHandler, MenuState.agrees]
  · intro h
    simp [click, hbound, documentHandler, MenuState.agrees, h]
  · intro t hne
    cases t with
    | toggle =>
      simp only [click, hbound, toggleHandler, MenuState.agrees]
      cases h : s.menuOpen <;> simp
    | navLink => simp [click, hbound, navLinkHandler, documentHandler, MenuState.agrees]
    | insidePanel =>
      exfalso; apply hne
      simp only [click, hbound, documentHandler]
      cases h : s.menuOpen <;> simp [h]
    | outside =>
      cases h : s.menuOpen with
      | false => exfalso; apply hne; simp [click, hbound, documentHandler, h]
      | true => simp [click, hbound, documentHandler, MenuState.agrees, h]
    | outsideStopped => exact absurd rfl hne

/-- C10 at its failing input: with both elements found by `setupHamburger` and
the panel closed, a click on the toggle opens the panel, and a click that then
lands outside panel and toggle on the Cancel or Confirm button of
`inlineConfirm` leaves the panel open, with the toggle's class and
`aria-expanded` still saying open: the button's handler stops propagation and
the document handler of lines 169-176 never runs. The same click on an element
that lets the event bubble closes the panel. -/
theorem menu_stays_open_on_stopped_click :
    (clicks (setupHamburger true true) ⟨false, false, none⟩ [.toggle]).menuOpen = true ∧
    clicks (setupHamburger true true) ⟨false, false, none⟩ [.toggle, .outsideStopped]
      = ⟨true, true, some "true"⟩ ∧
    clicks (setupHamburger true true) ⟨false, false, none⟩ [.toggle, .outside]
      = ⟨false, false, some "false"⟩ := by
  decide

/-! ### toast -/

theorem childrenLength_le_length (nodes : List Node) : childrenLength nodes ≤ nodes.length := by
  unfold childrenLength; exact List.length_filter_le _ _

/-- With as much fuel as there are child nodes the loop leaves through its
condition: fewer than `MAX_TOASTS` element children remain. -/
theorem evictLoop_exits (fuel : Nat) (nodes : List Node) (h : nodes.length ≤ fuel) :
    childrenLength (evictLoop fuel nodes) < MAX_TOASTS := by
  induction fuel generalizing nodes with
  | zero =>
    have : nodes = [] := List.length_eq_zero.mp (Nat.le_zero.mp h)
    subst this; decide
  | succ fuel ih =>
    unfold evictLoop
    split_ifs with hc
    · apply ih
      simp only [removeLastChild, List.length_dropLast]
      omega
    · omega

theorem childrenLength_erase_le (nodes : List Node) (n : Node) :
    childrenLength (nodes.erase n) ≤ childrenLength nodes := by
  unfold childrenLength
  exact (List.Sublist.filter _ (List.erase_sublist n nodes)).length_le

theorem childCount_toast_le (st : ToastState) (message : String) (type : Option String) :
    childCount (toast st message type) ≤ MAX_TOASTS := by
  unfold toast
  cases hc : st.container with
  | none => simp [childCount, hc]
  | some nodes =>
    have := evictLoop_exits nodes.length nodes (le_refl _)
    simp only [childCount, childrenLength, List.filter_cons, Node.isElement, if_true,
      List.length_cons] at *
    omega

theorem childCount_dismiss (st : ToastState) (el : Nat) :
    childCount (dismiss st el) = childCount st := by
  unfold dismiss; split_ifs <;> rfl

theorem childCount_removeToast_le (st : ToastState) (el : Nat) :
    childCount (removeToast st el) ≤ childCount st := by
  unfold removeToast
  split_ifs
  · cases hc : st.container with
    | none => simp [childCount, hc]
    | some nodes => simpa [childCount, hc] using childrenLength_erase_le nodes _
  · exact le_refl _

theorem childCount_toastStep_le (st : ToastState) (e : ToastEvent)
    (h : childCount st ≤ MAX_TOASTS) : childCount (toastStep st e) ≤ MAX_TOASTS := by
  cases e with
  | toast message type => exact childCount_toast_le st message type
  | closeClick el =>
    simp only [toastStep]; split_ifs
    · rw [childCount_dismiss]; exact h
    · exact h
  | mouseEnter el =>
    simp only [toastStep]; split_ifs
    · unfold mouseEnter; split <;> exact h
    · exact h
  | mouseLeave el =>
    simp only [toastStep]; split_ifs
    · exact h
    · exact h
  | timerFires t =>
    simp only [toastStep]
    split
    · exact h
    · split
      · rw [childCount_dismiss]; exact h
      · exact le_trans (childCount_removeToast_le _ _) h

theorem childCount_toastRun_le (es : List ToastEvent) (st : ToastState)
    (h : childCount st ≤ MAX_TOASTS) : childCount (toastRun st es) ≤ MAX_TOASTS := by
  induction es generalizing st with
  | nil => exact h
  | cons e es ih => exact ih _ (childCount_toastStep_le st e h)

/-- C1: for every page whose toast container has at most 3 element children and
every finite sequence of events (`toast` calls, close clicks, pointer entering
and leaving, dismissal timers and fade-out timers firing, in any order), the
container has at most 3 element children after every event of the sequence; and
after a single `toast` call the container has at most 3 element children
whatever it held before. -/
theorem toast_cap (st : ToastState) (es : List ToastEvent) (h : childCount st ≤ 3) :
    (∀ k, childCount (toastRun st (es.take k)) ≤ 3) ∧
    childCount (toastRun st es) ≤ 3 ∧
    (∀ (st1 : ToastState) (message : String) (type : Option String),
      childCount (toast st1 message type) ≤ 3) :=
  ⟨fun k => childCount_toastRun_le (es.take k) st h, childCount_toastRun_le es st h,
    childCount_toast_le⟩

theorem toast_cap_witness :
    childCount (toastRun
      { container := some [.toast 2, .text, .toast 1, .toast 0], toasts := [], pending := [],
        nextTimer := 0 }
      [.toast "saved" none, .closeClick 4, .toast "again" (some "error"), .timerFires 1]) ≤ 3 :=
  (toast_cap _ _ (by decide)).2.1

theorem childrenLength_map_toast (ids : List Nat) :
    childrenLength (ids.map Node.toast) = ids.length := by
  induction ids with
  | nil => rfl
  | cons i ids ih =>
    simp only [childrenLength, List.map_cons, List.filter_cons, Node.isElement, if_true,
      List.length_cons] at *
    omega

/-- On a container of toasts only, the loop keeps the first two children when
there are three or more and everything otherwise. -/
theorem evictLoop_map_toast (fuel : Nat) (ids : List Nat) (h : ids.length ≤ fuel) :
    evictLoop fuel (ids.map Node.toast) = (ids.take 2).map Node.toast := by
  induction fuel generalizing ids with
  | zero =>
    have : ids = [] := List.length_eq_zero.mp (Nat.le_zero.mp h)
    subst this; rfl
  | succ fuel ih =>
    unfold evictLoop
    rw [childrenLength_map_toast]
    split_ifs with hc
    · have hd : removeLastChild (ids.map Node.toast) = (ids.dropLast).map Node.toast := by
        simp [removeLastChild, List.dropLast_eq_take, List.map_take]
      rw [hd, ih _ (by simp only [List.length_dropLast]; omega)]
      congr 1
      rw [List.dropLast_eq_take, List.take_take]
      congr 1
      simp only [MAX_TOASTS] at hc
      omega
    · simp only [MAX_TOASTS] at hc
      rw [List.take_of_length_le (by omega)]

theorem newestFirst_toast (st : ToastState) (message : String) (type : Option String)
    (h : NewestFirst st) : NewestFirst (toast st message type) := by
  obtain ⟨ids, hc, hp, hb⟩ := h
  refine ⟨st.toasts.length :: ids.take 2, ?_, ?_, ?_⟩
  · simp only [toast, hc, List.length_map, List.map_cons]
    rw [evictLoop_map_toast _ _ (le_refl _)]
  · rw [List.pairwise_cons]
    exact ⟨fun a ha => hb a (List.mem_of_mem_take ha), hp.sublist (List.take_sublist _ _)⟩
  · intro i hi
    simp only [toast, hc, List.length_append, List.length_singleton]
    rcases List.mem_cons.mp hi with rfl | hi
    · omega
    · have := hb i (List.mem_of_mem_take hi); omega

theorem newestFirst_dismiss (st : ToastState) (el : Nat) (h : NewestFirst st) :
    NewestFirst (dismiss st el) := by
  obtain ⟨ids, hc, hp, hb⟩ := h
  unfold dismiss
  split_ifs
  · exact ⟨ids, hc, hp, hb⟩
  · exact ⟨ids, hc, hp, by simpa using hb⟩

theorem newestFirst_removeToast (st : ToastState) (el : Nat) (h : NewestFirst st) :
    NewestFirst (removeToast st el) := by
  obtain ⟨ids, hc, hp, hb⟩ := h
  unfold removeToast
  split_ifs
  · refine ⟨ids.erase el, ?_, hp.sublist (List.erase_sublist _ _), ?_⟩
    · simp only [hc, Option.map_some']
      congr 1
      have hinj : Function.Injective Node.toast := fun a b h => by cases h; rfl
      exact (List.map_erase hinj ids).symm
    · intro i hi
      exact hb i (List.mem_of_mem_erase hi)
  · exact ⟨ids, hc, hp, hb⟩

theorem newestFirst_pending (st : ToastState) (p : List (Nat × TimerAction))
    (h : NewestFirst st) : NewestFirst { st with pending := p } := h

theorem newestFirst_toastStep (st : ToastState) (e : ToastEvent) (h : NewestFirst st) :
    NewestFirst (toastStep st e) := by
  cases e with
  | toast message type => exact newestFirst_toast st message type h
  | closeClick el =>
    simp only [toastStep]; split_ifs
    · exact newestFirst_dismiss st el h
    · exact h
  | mouseEnter el =>
    simp only [toastStep]; split_ifs
    · unfold mouseEnter; split <;> exact h
    · exact h
  | mouseLeave el =>
    simp only [toastStep]; split_ifs
    · obtain ⟨ids, hc, hp, hb⟩ := h
      exact ⟨ids, hc, hp, by simpa [mouseLeave] using hb⟩
    · exact h
  | timerFires t =>
    simp only [toastStep]
    split
    · exact h
    · split
      · exact newestFirst_dismiss _ _ (newestFirst_pending st _ h)
      · exact newestFirst_removeToast _ _ (newestFirst_pending st _ h)

theorem newestFirst_toastRun (es : List ToastEvent) (st : ToastState) (h : NewestFirst st) :
    NewestFirst (toastRun st es) := by
  induction es generalizing st with
  | nil => exact h
  | cons e es ih => exact ih _ (newestFirst_toastStep st e h)

theorem newestFirst_emptyContainer : NewestFirst emptyContainer :=
  ⟨[], rfl, List.Pairwise.nil, by simp⟩

theorem toastCalls_from (calls : List (String × Option String)) (st : ToastState)
    (hc : st.container = some (((List.range st.toasts.length).reverse.take 3).map Node.toast)) :
    (toastCalls st calls).container
        = some (((List.range (st.toasts.length + calls.length)).reverse.take 3).map Node.toast) ∧
      (toastCalls st calls).toasts.length = st.toasts.length + calls.length := by
  induction calls generalizing st with
  | nil => exact ⟨by simpa [toastCalls] using hc, by simp [toastCalls]⟩
  | cons c calls ih =>
    have hlen : (toast st c.1 c.2).toasts.length = st.toasts.length + 1 := by
      simp [toast, hc]
    have hcont : (toast st c.1 c.2).container
        = some (((List.range (toast st c.1 c.2).toasts.length).reverse.take 3).map
            Node.toast) := by
      rw [hlen]
      simp only [toast, hc, List.length_map]
      rw [evictLoop_map_toast _ _ (le_refl _), List.take_take, List.range_succ]
      simp
    obtain ⟨h1, h2⟩ := ih (toast st c.1 c.2) hcont
    rw [hlen] at h1 h2
    have e : st.toasts.length + 1 + calls.length = st.toasts.length + (calls.length + 1) := by
      omega
    rw [e] at h1 h2
    exact ⟨by simpa only [toastCalls, List.foldl_cons, List.length_cons] using h1,
      by simpa only [toastCalls, List.foldl_cons, List.length_cons] using h2⟩

/-- C2: starting from an empty container, (1) after any sequence of events the
children are toasts ordered newest first (strictly decreasing creation
numbers); (2) when the container then holds 3 toasts, a `toast` call removes
exactly the last child, which is the one created earliest, keeps the other two
in place and puts the new toast first; (3) after `n` calls of `toast` and
nothing else the children are exactly the `min n 3` most recently created
toasts, newest first. -/
theorem toast_eviction_order (es : List ToastEvent) (calls : List (String × Option String))
    (message : String) (type : Option String) :
    NewestFirst (toastRun emptyContainer es) ∧
    (childCount (toastRun emptyContainer es) = 3 →
      ∃ a b c, a < b ∧ b < c ∧ c < (toastRun emptyContainer es).toasts.length ∧
        (toastRun emptyContainer es).container = some [.toast c, .toast b, .toast a] ∧
        (toast (toastRun emptyContainer es) message type).container
          = some [.toast (toastRun emptyContainer es).toasts.length, .toast c, .toast b]) ∧
    (toastCalls emptyContainer calls).container
      = some (((List.range calls.length).reverse.take 3).map Node.toast) ∧
    childCount (toastCalls emptyContainer calls) = min calls.length 3 := by
  have hinv := newestFirst_toastRun es emptyContainer newestFirst_emptyContainer
  have hcalls := (toastCalls_from calls emptyContainer rfl).1
  simp only [emptyContainer, List.length_nil, Nat.zero_add] at hcalls
  refine ⟨hinv, ?_, hcalls, ?_⟩
  · intro h3
    obtain ⟨ids, hc, hp, hb⟩ := hinv
    have hl : ids.length = 3 := by
      simpa [childCount, hc, childrenLength_map_toast] using h3
    match ids, hl with
    | [c, b, a], _ =>
      simp only [List.pairwise_cons, List.mem_cons, List.mem_singleton, forall_eq_or_imp,
        forall_eq] at hp
      refine ⟨a, b, c, by simpa using hp.2.1.1, hp.1.1, hb c (by simp), by simpa using hc, ?_⟩
      simp only [toast, hc, List.length_map]
      rw [evictLoop_map_toast _ _ (le_refl _)]
      simp
  · simp only [childCount, emptyContainer] at hcalls ⊢
    rw [hcalls]
    simp only [childrenLength_map_toast]
    simp [List.length_take, Nat.min_comm]

theorem toast_eviction_order_witness :
    ∃ a b c, a < b ∧ b < c ∧
      c < (toastRun emptyContainer
            [.toast "a" none, .toast "b" none, .toast "c" none, .toast "d" none]).toasts.length ∧
      (toastRun emptyContainer
          [.toast "a" none, .toast "b" none, .toast "c" none, .toast "d" none]).container
        = some [.toast c, .toast b, .toast a] ∧
      (toast (toastRun emptyContainer
          [.toast "a" none, .toast "b" none, .toast "c" none, .toast "d" none]) "e" none).container
        = some [.toast (toastRun emptyContainer
            [.toast "a" none, .toast "b" none, .toast "c" none, .toast "d" none]).toasts.length,
          .toast c, .toast b] :=
  (toast_eviction_order
    [.toast "a" none, .toast "b" none, .toast "c" none, .toast "d" none] [] "e" none).2.1
    (by decide)

/-! ### inlineConfirm -/

/-- The state after a call on a control whose marker is not set and that has a
parent. -/
theorem inlineConfirm_unmarked (st : ConfirmState) (f : Nat) (before after : List Sibling)
    (hm : markerSet st = false) (hp : st.parent = some (before, after)) :
    inlineConfirm st f =
      { st with
        confirming := some "1", display := "none"
        parent := some (before, .group st.sessions.length :: after)
        sessions := st.sessions ++ [{ onConfirm := f, timeout := st.nextTimer }]
        pending := st.pending ++ [(st.nextTimer, st.sessions.length)]
        nextTimer := st.nextTimer + 1 } := by
  simp [inlineConfirm, hm, hp]

/-- With the marker set a call changes nothing. -/
theorem inlineConfirm_marker_set (st : ConfirmState) (f : Nat) (h : markerSet st = true) :
    inlineConfirm st f = st := by
  simp [inlineConfirm, h]

theorem revert_sessions (st : ConfirmState) (j : Nat) :
    (revert st j).sessions = st.sessions ∧ (revert st j).nextTimer = st.nextTimer ∧
    (revert st j).invoked = st.invoked ∧
    (∀ p ∈ (revert st j).pending, p ∈ st.pending) ∧
    (∀ k, groupAttached (revert st j) k = true → groupAttached st k = true) := by
  unfold revert
  cases hs : st.sessions.get? j with
  | none => simp
  | some s =>
    refine ⟨rfl, rfl, rfl, ?_, ?_⟩
    · intro p hp
      exact List.mem_of_mem_filter hp
    · intro k hk
      by_cases ha : groupAttached st j = true
      · simp only [ha, if_true] at hk
        cases hpar : st.parent with
        | none => simp [groupAttached, hpar] at hk
        | some p =>
          obtain ⟨b, a⟩ := p
          simp only [groupAttached, hpar, Option.map_some', Bool.or_eq_true,
            List.contains_eq_any_beq, List.any_eq_true, beq_iff_eq] at hk ⊢
          rcases hk with ⟨x, hx, rfl⟩ | ⟨x, hx, rfl⟩
          · exact Or.inl ⟨_, List.mem_of_mem_erase hx, rfl⟩
          · exact Or.inr ⟨_, List.mem_of_mem_erase hx, rfl⟩
      · simp only [ha] at hk
        simpa [groupAttached] using hk

theorem wellFormed_freshControl (display className innerHTML : String)
    (confirming : Option String) (siblings : Option (List Nat × List Nat)) :
    WellFormed (freshControl display className innerHTML confirming siblings) := by
  refine ⟨?_, by simp [freshControl]⟩
  intro k hk
  cases siblings with
  | none => simp [groupAttached, freshControl] at hk
  | some p => simp [groupAttached, freshControl] at hk

theorem wellFormed_revert (st : ConfirmState) (j : Nat) (h : WellFormed st) :
    WellFormed (revert st j) := by
  obtain ⟨r1, r2, _, r4, r5⟩ := revert_sessions st j
  refine ⟨fun k hk => ?_, fun p hp => ?_⟩
  · rw [r1]; exact h.1 k (r5 k hk)
  · rw [r2]; exact h.2 p (r4 p hp)

theorem wellFormed_inlineConfirm (st : ConfirmState) (f : Nat) (h : WellFormed st) :
    WellFormed (inlineConfirm st f) := by
  unfold inlineConfirm
  split_ifs with hm
  · exact h
  · cases hpar : st.parent with
    | none =>
      refine ⟨fun k hk => ?_, h.2⟩
      simp [groupAttached, hpar] at hk
    | some p =>
      obtain ⟨b, a⟩ := p
      refine ⟨fun k hk => ?_, fun p hp => ?_⟩
      · simp only [List.length_append, List.length_singleton]
        by_cases hk2 : k = st.sessions.length
        · omega
        · have : groupAttached st k = true := by
            simp only [groupAttached, hpar, Bool.or_eq_true, List.contains_eq_any_beq,
              List.any_cons, beq_iff_eq, Sibling.group.injEq] at hk ⊢
            rcases hk with hk | hk | hk
            · exact Or.inl hk
            · exact absurd hk hk2
            · exact Or.inr hk
          have := h.1 k this
          omega
      · rcases List.mem_append.mp hp with hp | hp
        · have := h.2 p hp
          show p.1 < st.nextTimer + 1
          omega
        · simp only [List.mem_singleton] at hp
          subst hp
          show st.nextTimer < st.nextTimer + 1
          omega

theorem wellFormed_confirmStep (st : ConfirmState) (e : ConfirmEvent) (h : WellFormed st) :
    WellFormed (confirmStep st e) := by
  cases e with
  | call f => exact wellFormed_inlineConfirm st f h
  | clickCancel j => exact wellFormed_revert st j h
  | clickConfirm j =>
    simp only [confirmStep]
    split
    · exact h
    · exact wellFormed_revert st j h
  | timerFires u =>
    simp only [confirmStep]
    split
    · exact h
    · apply wellFormed_revert
      exact ⟨h.1, fun p hp => h.2 p (List.mem_of_mem_filter hp)⟩

theorem wellFormed_confirmRun (es : List ConfirmEvent) (st : ConfirmState)
    (h : WellFormed st) : WellFormed (confirmRun st es) := by
  induction es generalizing st with
  | nil => exact h
  | cons e es ih => exact ih _ (wellFormed_confirmStep st e h)

theorem wellFormed_of_reachable (st : ConfirmState) (h : Reachable st) : WellFormed st := by
  obtain ⟨d, c, i, m, s, es, rfl⟩ := h
  exact wellFormed_confirmRun es _ (wellFormed_freshControl d c i m s)

/-- After a call on a well-formed control with a parent and no marker, `revert`
of the new session gives the control back with an empty inline display and no
marker, its siblings and the pending timers as they were before the call. -/
theorem revert_inlineConfirm (st : ConfirmState) (f : Nat) (before after : List Sibling)
    (hw : WellFormed st) (hm : markerSet st = false) (hp : st.parent = some (before, after)) :
    revert (inlineConfirm st f) st.sessions.length =
      { st with
        display := "", confirming := none
        sessions := st.sessions ++ [{ onConfirm := f, timeout := st.nextTimer }]
        nextTimer := st.nextTimer + 1 } := by
  rw [inlineConfirm_unmarked st f before after hm hp]
  have hna : groupAttached st st.sessions.length = false := by
    cases hg : groupAttached st st.sessions.length with
    | false => rfl
    | true => exact absurd (hw.1 _ hg) (by omega)
  simp only [groupAttached, hp, Bool.or_eq_false_iff, List.contains_eq_any_beq,
    List.any_eq_false, beq_iff_eq] at hna
  have hb1 : before.erase (Sibling.group st.sessions.length) = before :=
    List.erase_of_not_mem (fun hmem => hna.1 _ hmem rfl)
  have hpend : st.pending.filter (fun p => p.1 != st.nextTimer) = st.pending := by
    rw [List.filter_eq_self]
    intro p hp
    have := hw.2 p hp
    simp only [bne_iff_ne, ne_eq]
    omega
  simp [revert, groupAttached, hb1, hp, List.filter_append, hpend]

/-- What the three events of the session just started do right after the call:
each ends the session; only the confirm click calls back. -/
theorem session_end (st : ConfirmState) (f : Nat) (before after : List Sibling)
    (hw : WellFormed st) (hm : markerSet st = false) (hp : st.parent = some (before, after)) :
    confirmStep (inlineConfirm st f) (.clickConfirm st.sessions.length) =
      { st with
        display := "", confirming := none
        sessions := st.sessions ++ [{ onConfirm := f, timeout := st.nextTimer }]
        nextTimer := st.nextTimer + 1, invoked := st.invoked ++ [f] } ∧
    confirmStep (inlineConfirm st f) (.clickCancel st.sessions.length) =
      { st with
        display := "", confirming := none
        sessions := st.sessions ++ [{ onConfirm := f, timeout := st.nextTimer }]
        nextTimer := st.nextTimer + 1 } ∧
    confirmStep (inlineConfirm st f) (.timerFires st.nextTimer) =
      { st with
        display := "", confirming := none
        sessions := st.sessions ++ [{ onConfirm := f, timeout := st.nextTimer }]
        nextTimer := st.nextTimer + 1 } := by
  have hrev := revert_inlineConfirm st f before after hw hm hp
  have hsess : (inlineConfirm st f).sessions.get? st.sessions.length
      = some { onConfirm := f, timeout := st.nextTimer } := by
    rw [inlineConfirm_unmarked st f before after hm hp]
    simp
  refine ⟨?_, ?_, ?_⟩
  · simp only [confirmStep, hsess, hrev]
  · simp only [confirmStep, hrev]
  · have hfind : (inlineConfirm st f).pending.find? (fun p => p.1 == st.nextTimer)
        = some (st.nextTimer, st.sessions.length) := by
      rw [inlineConfirm_unmarked st f before after hm hp]
      simp only [List.find?_append]
      have : st.pending.find? (fun p => p.1 == st.nextTimer) = none := by
        rw [List.find?_eq_none]
        intro p hp
        have := hw.2 p hp
        simp only [beq_iff_eq]
        omega
      simp [this]
    simp only [confirmStep, hfind]
    have hrev2 : revert { inlineConfirm st f with
        pending := (inlineConfirm st f).pending.filter (fun p => p.1 != st.nextTimer) }
          st.sessions.length = revert (inlineConfirm st f) st.sessions.length := by
      simp only [revert, hsess, groupAttached, List.filter_filter, Bool.and_self]
    rw [hrev2, hrev]

theorem timerOver_revert (st : ConfirmState) (j t : Nat) (h : TimerOver st t) :
    TimerOver (revert st j) t := by
  obtain ⟨_, r2, _, r4, _⟩ := revert_sessions st j
  exact ⟨by rw [r2]; exact h.1, fun p hp => h.2 p (r4 p hp)⟩

theorem timerOver_inlineConfirm (st : ConfirmState) (f t : Nat) (h : TimerOver st t) :
    TimerOver (inlineConfirm st f) t := by
  obtain ⟨h3, h4⟩ := h
  unfold inlineConfirm
  split_ifs with hm
  · exact ⟨h3, h4⟩
  · cases hpar : st.parent with
    | none => exact ⟨h3, h4⟩
    | some p =>
      obtain ⟨b, a⟩ := p
      refine ⟨?_, ?_⟩
      · show t < st.nextTimer + 1
        omega
      · intro p hp
        rcases List.mem_append.mp hp with hp | hp
        · exact h4 p hp
        · simp only [List.mem_singleton] at hp
          subst hp
          show st.nextTimer ≠ t
          omega

theorem timerOver_confirmStep (st : ConfirmState) (e : ConfirmEvent) (t : Nat)
    (h : TimerOver st t) : TimerOver (confirmStep st e) t := by
  cases e with
  | call f => exact timerOver_inlineConfirm st f t h
  | clickCancel j => exact timerOver_revert st j t h
  | clickConfirm j =>
    simp only [confirmStep]
    split
    · exact h
    · exact timerOver_revert st j t h
  | timerFires u =>
    simp only [confirmStep]
    split
    · exact h
    · apply timerOver_revert
      exact ⟨h.1, fun p hp => h.2 p (List.mem_of_mem_filter hp)⟩

theorem timerOver_confirmRun (es : List ConfirmEvent) (st : ConfirmState) (t : Nat)
    (h : TimerOver st t) : TimerOver (confirmRun st es) t := by
  induction es generalizing st with
  | nil => exact h
  | cons e es ih => exact ih _ (timerOver_confirmStep st e t h)

/-- A timer that is over does nothing when its time comes. -/
theorem timerOver_noop (st : ConfirmState) (t : Nat) (h : TimerOver st t) :
    confirmStep st (.timerFires t) = st := by
  have : st.pending.find? (fun p => p.1 == t) = none := by
    rw [List.find?_eq_none]
    intro p hp
    simpa using h.2 p hp
  simp [confirmStep, this]

/-- A session, once started, keeps its number and its callback. -/
theorem session_kept_confirmStep (st : ConfirmState) (e : ConfirmEvent) (k : Nat) (s : Session)
    (h : st.sessions.get? k = some s) : (confirmStep st e).sessions.get? k = some s := by
  have hk : k < st.sessions.length := by
    rcases Nat.lt_or_ge k st.sessions.length with hk | hk
    · exact hk
    · rw [List.get?_eq_none.mpr hk] at h; cases h
  cases e with
  | call f =>
    simp only [confirmStep, inlineConfirm]
    split_ifs
    · exact h
    · split
      · exact h
      · simp only
        rw [List.get?_eq_getElem?, List.getElem?_append_left hk, ← List.get?_eq_getElem?]
        exact h
  | clickCancel j => simp only [confirmStep, (revert_sessions st j).1]; exact h
  | clickConfirm j =>
    simp only [confirmStep]
    split
    · exact h
    · simp only [(revert_sessions st j).1]; exact h
  | timerFires u =>
    simp only [confirmStep]
    split
    · exact h
    · rename_i j _
      rw [(revert_sessions _ j).1]; exact h

theorem session_kept_confirmRun (es : List ConfirmEvent) (st : ConfirmState) (k : Nat)
    (s : Session) (h : st.sessions.get? k = some s) :
    (confirmRun st es).sessions.get? k = some s := by
  induction es generalizing st with
  | nil => exact h
  | cons e es ih => exact ih _ (session_kept_confirmStep st e k s h)

/-- Only a click event on a confirm button invokes a callback. -/
theorem invoked_unchanged_confirmStep (st : ConfirmState) (e : ConfirmEvent)
    (he : ∀ j, e ≠ .clickConfirm j) : (confirmStep st e).invoked = st.invoked := by
  cases e with
  | call f =>
    simp only [confirmStep, inlineConfirm]
    split_ifs
    · rfl
    · split <;> rfl
  | clickCancel j => exact (revert_sessions st j).2.2.1
  | clickConfirm j => exact absurd rfl (he j)
  | timerFires u =>
    simp only [confirmStep]
    split
    · rfl
    · rename_i j _
      exact (revert_sessions _ j).2.2.1

theorem invoked_unchanged_confirmRun (es : List ConfirmEvent) (st : ConfirmState)
    (he : ∀ e ∈ es, ∀ j, e ≠ .clickConfirm j) : (confirmRun st es).invoked = st.invoked := by
  induction es generalizing st with
  | nil => rfl
  | cons e es ih =>
    have h1 := invoked_unchanged_confirmStep st e (he e (List.mem_cons_self _ _))
    have h2 := ih (confirmStep st e) (fun e1 h => he e1 (List.mem_cons_of_mem _ h))
    simp only [confirmRun, List.foldl_cons] at h2 ⊢
    rw [h2, h1]

/-- What the log gained since it read `base` are callbacks of sessions. -/
theorem invoked_through_sessions_confirmStep (st : ConfirmState) (e : ConfirmEvent)
    (base : List Nat)
    (h : ∃ extra, st.invoked = base ++ extra ∧
      ∀ c ∈ extra, ∃ s ∈ st.sessions, s.onConfirm = c) :
    ∃ extra, (confirmStep st e).invoked = base ++ extra ∧
      ∀ c ∈ extra, ∃ s ∈ (confirmStep st e).sessions, s.onConfirm = c := by
  obtain ⟨extra, hinv, hex⟩ := h
  have hsub : ∀ s ∈ st.sessions, s ∈ (confirmStep st e).sessions := by
    intro s hs
    obtain ⟨k, hk⟩ := List.get?_of_mem hs
    exact List.get?_mem (session_kept_confirmStep st e k s hk)
  have hold : ∀ c ∈ extra, ∃ s ∈ (confirmStep st e).sessions, s.onConfirm = c := by
    intro c hc
    obtain ⟨s, hs, rfl⟩ := hex c hc
    exact ⟨s, hsub s hs, rfl⟩
  by_cases he : ∀ j, e ≠ .clickConfirm j
  · exact ⟨extra, by rw [invoked_unchanged_confirmStep st e he, hinv], hold⟩
  · push_neg at he
    obtain ⟨j, rfl⟩ := he
    cases hs : st.sessions.get? j with
    | none =>
      refine ⟨extra, ?_, hold⟩
      simp only [confirmStep, hs, hinv]
    | some s =>
      refine ⟨extra ++ [s.onConfirm], ?_, ?_⟩
      · simp only [confirmStep, hs, (revert_sessions st j).2.2.1, hinv, List.append_assoc]
      · intro c hc
        rcases List.mem_append.mp hc with hc3 | hc3
        · exact hold c hc3
        · simp only [List.mem_singleton] at hc3
          subst hc3
          exact ⟨s, hsub s (List.get?_mem hs), rfl⟩

theorem invoked_through_sessions_confirmRun (es : List ConfirmEvent) (st : ConfirmState)
    (base : List Nat)
    (h : ∃ extra, st.invoked = base ++ extra ∧
      ∀ c ∈ extra, ∃ s ∈ st.sessions, s.onConfirm = c) :
    ∃ extra, (confirmRun st es).invoked = base ++ extra ∧
      ∀ c ∈ extra, ∃ s ∈ (confirmRun st es).sessions, s.onConfirm = c := by
  induction es generalizing st with
  | nil => exact h
  | cons e es ih => exact ih _ (invoked_through_sessions_confirmStep st e base h)

theorem parent_of_isSome (st : ConfirmState) (hp : st.parent.isSome = true) :
    ∃ before after, st.parent = some (before, after) := by
  cases h : st.parent with
  | none => simp [h] at hp
  | some p => exact ⟨p.1, p.2, rfl⟩

theorem not_attached_fresh_group (st : ConfirmState) (hw : WellFormed st) :
    groupAttached st st.sessions.length = false := by
  cases hg : groupAttached st st.sessions.length with
  | false => rfl
  | true => exact absurd (hw.1 _ hg) (by omega)

/-- C5 as stated fails on a control with a non-empty inline display: after the
call and the confirm click the inline display is the empty string, not the
`inline-block` it was before the call. -/
theorem inlineConfirm_display_not_restored :
    (confirmRun (freshControl "inline-block" "btn" "Delete" none (some ([], [])))
        [.call 7, .clickConfirm 0]).display = "" ∧
    (confirmRun (freshControl "inline-block" "btn" "Delete" none (some ([], [])))
        [.call 7, .clickConfirm 0]).display
      ≠ (freshControl "inline-block" "btn" "Delete" none (some ([], []))).display := by
  decide

/-- C5 (amended): for every control, in any state it can reach, that has a
parent and whose marker is not set, whatever its inline display and class, and
every callback `f`: the call puts the confirm/cancel pair right after the
control and hides the control; the click on the confirm button then invokes `f`
exactly once; afterwards the control's inline display is the empty string (the
original one when that was empty), its class is what it was before the call, the
siblings are what they were (the pair is gone), the marker is cleared, the
session's timer is no longer pending, and in every later state that timer is
still not pending and fires no second revert. -/
theorem inlineConfirm_confirm_path (st0 : ConfirmState) (f : Nat) (es : List ConfirmEvent)
    (hr : Reachable st0) (hm : markerSet st0 = false) (hp : st0.parent.isSome = true) :
    nextSibling (inlineConfirm st0 f) = some (.group st0.sessions.length) ∧
    (inlineConfirm st0 f).display = "none" ∧
    (confirmStep (inlineConfirm st0 f) (.clickConfirm st0.sessions.length)).invoked
      = st0.invoked ++ [f] ∧
    (confirmStep (inlineConfirm st0 f) (.clickConfirm st0.sessions.length)).display = "" ∧
    (st0.display = "" →
      (confirmStep (inlineConfirm st0 f) (.clickConfirm st0.sessions.length)).display
        = st0.display) ∧
    (confirmStep (inlineConfirm st0 f) (.clickConfirm st0.sessions.length)).className
      = st0.className ∧
    (confirmStep (inlineConfirm st0 f) (.clickConfirm st0.sessions.length)).parent
      = st0.parent ∧
    groupAttached (confirmStep (inlineConfirm st0 f) (.clickConfirm st0.sessions.length))
      st0.sessions.length = false ∧
    (confirmStep (inlineConfirm st0 f) (.clickConfirm st0.sessions.length)).confirming
      = none ∧
    (∀ p ∈ (confirmStep (inlineConfirm st0 f) (.clickConfirm st0.sessions.length)).pending,
      p.1 ≠ st0.nextTimer) ∧
    (∀ p ∈ (confirmRun (confirmStep (inlineConfirm st0 f)
        (.clickConfirm st0.sessions.length)) es).pending, p.1 ≠ st0.nextTimer) ∧
    confirmStep (confirmRun (confirmStep (inlineConfirm st0 f)
        (.clickConfirm st0.sessions.length)) es) (.timerFires st0.nextTimer)
      = confirmRun (confirmStep (inlineConfirm st0 f)
        (.clickConfirm st0.sessions.length)) es := by
  have hw := wellFormed_of_reachable st0 hr
  obtain ⟨before, after, hpar⟩ := parent_of_isSome st0 hp
  have hend := (session_end st0 f before after hw hm hpar).1
  have hcall := inlineConfirm_unmarked st0 f before after hm hpar
  have hover : TimerOver (confirmStep (inlineConfirm st0 f)
      (.clickConfirm st0.sessions.length)) st0.nextTimer := by
    rw [hend]
    refine ⟨by show st0.nextTimer < st0.nextTimer + 1; omega, fun p hp => ?_⟩
    have := hw.2 p hp
    omega
  have hrun := timerOver_confirmRun es _ _ hover
  have hnoop := timerOver_noop _ _ hrun
  refine ⟨by rw [hcall]; rfl, by rw [hcall], by rw [hend], by rw [hend],
    fun e => by rw [hend]; exact e.symm, by rw [hend], by rw [hend], ?_, by rw [hend],
    hover.2, hrun.2, hnoop⟩
  rw [hend]
  exact not_attached_fresh_group st0 hw

theorem inlineConfirm_confirm_path_witness :
    (confirmStep (inlineConfirm (freshControl "" "btn danger" "Delete" none (some ([1], [2]))) 7)
      (.clickConfirm 0)).invoked = [7] ∧
    (confirmStep (inlineConfirm (freshControl "" "btn danger" "Delete" none (some ([1], [2]))) 7)
      (.clickConfirm 0)).className = "btn danger" :=
  ⟨(inlineConfirm_confirm_path (freshControl "" "btn danger" "Delete" none (some ([1], [2]))) 7 []
      ⟨"", "btn danger", "Delete", none, some ([1], [2]), [], rfl⟩ rfl rfl).2.2.1,
   (inlineConfirm_confirm_path (freshControl "" "btn danger" "Delete" none (some ([1], [2]))) 7 []
      ⟨"", "btn danger", "Delete", none, some ([1], [2]), [], rfl⟩ rfl rfl).2.2.2.2.2.1⟩

/-- C6 as stated fails in two ways. On a control without a parent the first call
sets the marker and ends in an exception before any pair is inserted, so the
second call is a no-op with no pair at all after the control. And when a click
event on the cancel button of an ended session has cleared the marker while a
later session still had its pair in place, the next call inserts a second pair,
and a further call is a no-op with two pairs after the control. -/
theorem inlineConfirm_pair_not_single :
    markerSet (inlineConfirm (freshControl "" "btn" "Delete" none none) 7) = true ∧
    inlineConfirm (inlineConfirm (freshControl "" "btn" "Delete" none none) 7) 8
      = inlineConfirm (freshControl "" "btn" "Delete" none none) 7 ∧
    pairCount (inlineConfirm (inlineConfirm (freshControl "" "btn" "Delete" none none) 7) 8)
      = 0 ∧
    markerSet (confirmRun (freshControl "" "btn" "Delete" none (some ([], [])))
      [.call 1, .clickCancel 0, .call 2, .clickCancel 0, .call 3]) = true ∧
    confirmRun (freshControl "" "btn" "Delete" none (some ([], [])))
        [.call 1, .clickCancel 0, .call 2, .clickCancel 0, .call 3, .call 4]
      = confirmRun (freshControl "" "btn" "Delete" none (some ([], [])))
        [.call 1, .clickCancel 0, .call 2, .clickCancel 0, .call 3] ∧
    pairCount (confirmRun (freshControl "" "btn" "Delete" none (some ([], [])))
      [.call 1, .clickCancel 0, .call 2, .clickCancel 0, .call 3, .call 4]) = 2 := by
  decide

/-- C6 (amended): on a control that has a parent, had no marker and no
confirm/cancel pair among its siblings, and on which a call has just started a
session, a second call with any callback `f` returns the state unchanged
(control, siblings, marker, pending timers, sessions and log); exactly one pair
is among the siblings and it is the control's next sibling; the second call
starts no session; every later sequence of events runs as it would without the
second call; every callback a later event adds to the log is the callback of a
session some call started; so `f` is never invoked by a later event unless a
session started by another call has `f` as its callback. -/
theorem inlineConfirm_reentrancy (st0 : ConfirmState) (g f : Nat) (es : List ConfirmEvent)
    (hm : markerSet st0 = false) (hp : st0.parent.isSome = true) (hc : pairCount st0 = 0) :
    inlineConfirm (inlineConfirm st0 g) f = inlineConfirm st0 g ∧
    pairCount (inlineConfirm (inlineConfirm st0 g) f) = 1 ∧
    nextSibling (inlineConfirm (inlineConfirm st0 g) f) = some (.group st0.sessions.length) ∧
    (inlineConfirm (inlineConfirm st0 g) f).sessions
      = st0.sessions ++ [{ onConfirm := g, timeout := st0.nextTimer }] ∧
    confirmRun (inlineConfirm (inlineConfirm st0 g) f) es
      = confirmRun (inlineConfirm st0 g) es ∧
    (∃ extra,
      (confirmRun (inlineConfirm (inlineConfirm st0 g) f) es).invoked = st0.invoked ++ extra ∧
      ∀ c ∈ extra,
        ∃ s ∈ (confirmRun (inlineConfirm (inlineConfirm st0 g) f) es).sessions,
          s.onConfirm = c) ∧
    ((∀ s ∈ (confirmRun (inlineConfirm (inlineConfirm st0 g) f) es).sessions,
        s.onConfirm ≠ f) →
      (confirmRun (inlineConfirm (inlineConfirm st0 g) f) es).invoked.count f
        = st0.invoked.count f) := by
  obtain ⟨before, after, hpar⟩ := parent_of_isSome st0 hp
  have hcall := inlineConfirm_unmarked st0 g before after hm hpar
  have hms : markerSet (inlineConfirm st0 g) = true := by rw [hcall]; rfl
  have hno := inlineConfirm_marker_set (inlineConfirm st0 g) f hms
  have hthrough := invoked_through_sessions_confirmRun es (inlineConfirm st0 g) st0.invoked
    ⟨[], by rw [hcall]; simp, by simp⟩
  rw [hno]
  refine ⟨rfl, ?_, by rw [hcall]; rfl, by rw [hcall], rfl, hthrough, ?_⟩
  · simp only [pairCount, hpar] at hc
    rw [hcall]
    simp only [pairCount, List.filter_cons, if_true, List.length_cons]
    omega
  · intro hs
    obtain ⟨extra, hinv, hex⟩ := hthrough
    have hnot : f ∉ extra := fun hmem => by
      obtain ⟨s, hs1, hs2⟩ := hex f hmem
      exact hs s hs1 hs2
    rw [hinv, List.count_append, List.count_eq_zero_of_not_mem hnot, Nat.add_zero]

theorem inlineConfirm_reentrancy_witness :
    inlineConfirm (inlineConfirm (freshControl "" "btn" "Delete" none (some ([], [3]))) 7) 8
      = inlineConfirm (freshControl "" "btn" "Delete" none (some ([], [3]))) 7 ∧
    (confirmRun
      (inlineConfirm (inlineConfirm (freshControl "" "btn" "Delete" none (some ([], [3]))) 7) 8)
      [.clickConfirm 0, .call 9, .timerFires 1]).invoked.count 8 = 0 :=
  ⟨(inlineConfirm_reentrancy (freshControl "" "btn" "Delete" none (some ([], [3]))) 7 8 []
      rfl rfl (by decide)).1,
   (inlineConfirm_reentrancy (freshControl "" "btn" "Delete" none (some ([], [3]))) 7 8
      [.clickConfirm 0, .call 9, .timerFires 1] rfl rfl (by decide)).2.2.2.2.2.2
      (by decide)⟩

/-- C7 as stated fails in two ways. On a control without a parent the call sets
the marker, hides the control and ends in an exception before any timer is
started: nothing is pending, so when the 3000 ms are over the control is still
hidden and marked. And after a cancel click has ended a session, a click event
on that session's confirm button still runs its handler and invokes the
callback. -/
theorem inlineConfirm_cancel_timeout_fails :
    (inlineConfirm (freshControl "" "btn" "Delete" none none) 7).pending = [] ∧
    confirmStep (inlineConfirm (freshControl "" "btn" "Delete" none none) 7) (.timerFires 0)
      = inlineConfirm (freshControl "" "btn" "Delete" none none) 7 ∧
    (inlineConfirm (freshControl "" "btn" "Delete" none none) 7).display = "none" ∧
    (inlineConfirm (freshControl "" "btn" "Delete" none none) 7).confirming = some "1" ∧
    (confirmRun (freshControl "" "btn" "Delete" none (some ([], [])))
      [.call 7, .clickCancel 0]).invoked = [] ∧
    (confirmRun (freshControl "" "btn" "Delete" none (some ([], [])))
      [.call 7, .clickCancel 0, .clickConfirm 0]).invoked = [7] := by
  decide

/-- C7 (amended): for every control, in any state it can reach, that has a
parent and whose marker is not set, and every callback `f`: if after the call
the cancel button is clicked or the auto-revert timer fires, then the siblings
are what they were before the call (the pair is gone), the control's inline
display is the empty string, the marker is cleared, `f` has not been invoked,
and a later call starts a new session with a new pair right after the control;
in every later state the ended session's timer fires nothing and a click event
on its cancel button invokes nothing, no event other than a click event on a
confirm button invokes anything, and a click event on the ended session's
confirm button, removed though it is, invokes `f`. -/
theorem inlineConfirm_cancel_timeout (st0 : ConfirmState) (f g : Nat) (e : ConfirmEvent)
    (es : List ConfirmEvent) (hr : Reachable st0) (hm : markerSet st0 = false)
    (hp : st0.parent.isSome = true)
    (he : e = .clickCancel st0.sessions.length ∨ e = .timerFires st0.nextTimer) :
    (confirmStep (inlineConfirm st0 f) e).parent = st0.parent ∧
    groupAttached (confirmStep (inlineConfirm st0 f) e) st0.sessions.length = false ∧
    (confirmStep (inlineConfirm st0 f) e).display = "" ∧
    (confirmStep (inlineConfirm st0 f) e).confirming = none ∧
    (confirmStep (inlineConfirm st0 f) e).invoked = st0.invoked ∧
    markerSet (inlineConfirm (confirmStep (inlineConfirm st0 f) e) g) = true ∧
    nextSibling (inlineConfirm (confirmStep (inlineConfirm st0 f) e) g)
      = some (.group (st0.sessions.length + 1)) ∧
    (inlineConfirm (confirmStep (inlineConfirm st0 f) e) g).sessions.length
      = st0.sessions.length + 2 ∧
    confirmStep (confirmRun (confirmStep (inlineConfirm st0 f) e) es)
        (.timerFires st0.nextTimer)
      = confirmRun (confirmStep (inlineConfirm st0 f) e) es ∧
    (confirmStep (confirmRun (confirmStep (inlineConfirm st0 f) e) es)
        (.clickCancel st0.sessions.length)).invoked
      = (confirmRun (confirmStep (inlineConfirm st0 f) e) es).invoked ∧
    ((∀ e1 ∈ es, ∀ j, e1 ≠ .clickConfirm j) →
      (confirmRun (confirmStep (inlineConfirm st0 f) e) es).invoked = st0.invoked) ∧
    (confirmStep (confirmRun (confirmStep (inlineConfirm st0 f) e) es)
        (.clickConfirm st0.sessions.length)).invoked
      = (confirmRun (confirmStep (inlineConfirm st0 f) e) es).invoked ++ [f] := by
  have hw := wellFormed_of_reachable st0 hr
  obtain ⟨before, after, hpar⟩ := parent_of_isSome st0 hp
  have hend := session_end st0 f before after hw hm hpar
  have hst : confirmStep (inlineConfirm st0 f) e =
      { st0 with
        display := "", confirming := none
        sessions := st0.sessions ++ [{ onConfirm := f, timeout := st0.nextTimer }]
        nextTimer := st0.nextTimer + 1 } := by
    rcases he with rfl | rfl
    · exact hend.2.1
    · exact hend.2.2
  have hover : TimerOver (confirmStep (inlineConfirm st0 f) e) st0.nextTimer := by
    rw [hst]
    refine ⟨by show st0.nextTimer < st0.nextTimer + 1; omega, fun p hp => ?_⟩
    have := hw.2 p hp
    omega
  have hnoop := timerOver_noop _ _ (timerOver_confirmRun es _ _ hover)
  have hsess : (confirmStep (inlineConfirm st0 f) e).sessions.get? st0.sessions.length
      = some { onConfirm := f, timeout := st0.nextTimer } := by
    rw [hst]; simp
  have hkept := session_kept_confirmRun es _ _ _ hsess
  have hcall2 := inlineConfirm_unmarked (confirmStep (inlineConfirm st0 f) e) g before after
    (by rw [hst]; rfl) (by rw [hst]; exact hpar)
  refine ⟨by rw [hst], ?_, by rw [hst], by rw [hst], by rw [hst], by rw [hcall2]; rfl,
    ?_, ?_, hnoop, ?_, ?_, ?_⟩
  · rw [hst]
    exact not_attached_fresh_group st0 hw
  · rw [hcall2, hst]
    simp [nextSibling]
  · rw [hcall2, hst]
    simp
  · exact invoked_unchanged_confirmStep _ _ (fun j h => by cases h)
  · intro hes
    rw [invoked_unchanged_confirmRun es _ hes, hst]
  · generalize confirmRun (confirmStep (inlineConfirm st0 f) e) es = st3 at hkept ⊢
    simp only [confirmStep, hkept, (revert_sessions st3 _).2.2.1]

theorem inlineConfirm_cancel_timeout_witness :
    (confirmStep (inlineConfirm (freshControl "" "btn" "Delete" none (some ([], [3]))) 7)
      (.timerFires 0)).invoked = [] ∧
    (confirmStep (inlineConfirm (freshControl "" "btn" "Delete" none (some ([], [3]))) 7)
      (.timerFires 0)).confirming = none :=
  ⟨(inlineConfirm_cancel_timeout (freshControl "" "btn" "Delete" none (some ([], [3]))) 7 8
      (.timerFires 0) [] ⟨"", "btn", "Delete", none, some ([], [3]), [], rfl⟩ rfl rfl
      (Or.inr rfl)).2.2.2.2.1,
   (inlineConfirm_cancel_timeout (freshControl "" "btn" "Delete" none (some ([], [3]))) 7 8
      (.timerFires 0) [] ⟨"", "btn", "Delete", none, some ([], [3]), [], rfl⟩ rfl rfl
      (Or.inr rfl)).2.2.2.1⟩

end VS
